import Mathlib

/-!
Verification development for the notebook
`contrib/ipython/Create_1D_ASPECT_profile.ipynb`.

The notebook computes a relaxed 1-D pressure/temperature/density profile
along an isentrope.  Its numeric core is shallowly embedded here:

* the mineral-physics property evaluator (`burnman.PerplexMaterial`) is
  modelled by `RockTable`, a bundle of pure property functions of
  pressure and temperature, its valid `(P, T)` bounds and molar mass;
* exact rational arithmetic replaces floating point (float constants
  such as `np.pi` become the rational constants the doubles denote);
* the scipy routines the notebook calls (`brentq`, `fsolve`,
  `UnivariateSpline`, `odeint`) and the burnman smoothing constructor
  are external library code; they enter the embedding as explicit
  function parameters (bundled in `NumLib`), with their documented
  contracts stated as hypotheses of the theorems that need them.
-/

/-- Pure model of the property evaluator (`burnman.PerplexMaterial`).
`S`, `V`, `rho`, `p_wave_velocity`, `shear_wave_velocity` give the
single-point properties the notebook reads after `set_state(P, T)`;
`bounds` is the pair (pressure bounds, temperature bounds), so that
`bounds.2.1` and `bounds.2.2` model `rock.bounds[1][0]` and
`rock.bounds[1][1]`; `molar_mass` models `rock.params['molar_mass']`. -/
structure RockTable where
  S : ℚ → ℚ → ℚ
  V : ℚ → ℚ → ℚ
  rho : ℚ → ℚ → ℚ
  p_wave_velocity : ℚ → ℚ → ℚ
  shear_wave_velocity : ℚ → ℚ → ℚ
  bounds : (ℚ × ℚ) × (ℚ × ℚ)
  molar_mass : ℚ

/-- Error conditions of the notebook's solvers: `scipy.optimize.brentq`
raises a ValueError when the root is not bracketed, and an iterative
solver may fail to converge within its budget. -/
inductive SolverErr where
  | RootNotBracketed : SolverErr
  | NonConvergence : SolverErr
deriving DecidableEq

/-- Model of `scipy.optimize.brentq f a b`: the sign check is concrete
(scipy raises `ValueError` when `f(a)` and `f(b)` have the same strict
sign, i.e. when `f a * f b > 0`); the Brent iteration itself is
abstracted as the parameter `it`. -/
def brentq (it : (ℚ → ℚ) → ℚ → ℚ → ℚ) (f : ℚ → ℚ) (a b : ℚ) :
    Except SolverErr ℚ :=
  if f a * f b > 0 then .error .RootNotBracketed else .ok (it f a b)

/-- Loop of the notebook's `isentrope`: for each pressure `P` (in order)
solve `rock.S P T - entropy = 0` for `T` by `brentq` over the rock's
full temperature bounds.  The accumulator `sol` mirrors the Python
variable `sol`, which is initialised from `T_guess` and overwritten by
each `brentq` call before ever being read. -/
def isentropeLoop (it : (ℚ → ℚ) → ℚ → ℚ → ℚ) (rock : RockTable)
    (entropy : ℚ) : List ℚ → ℚ → Except SolverErr (List ℚ)
  | [], _sol => .ok []
  | P :: Ps, _sol =>
    match brentq it (fun T => rock.S P T - entropy)
        rock.bounds.2.1 rock.bounds.2.2 with
    | .error e => .error e
    | .ok sol =>
      match isentropeLoop it rock entropy Ps sol with
      | .error e => .error e
      | .ok Ts => .ok (sol :: Ts)

/-- The notebook's `isentrope(rock, pressures, entropy, T_guess)`:
returns one temperature per pressure, or propagates the first solver
error (a raised exception in Python aborts the whole loop). -/
def isentrope (it : (ℚ → ℚ) → ℚ → ℚ → ℚ) (rock : RockTable)
    (pressures : List ℚ) (entropy T_guess : ℚ) : Except SolverErr (List ℚ) :=
  isentropeLoop it rock entropy pressures T_guess

/-- Loop of the notebook's `interp_isentrope`: for each pressure solve
`interp P T - entropy = 0` with `scipy.optimize.fsolve` (modelled by the
parameter `fs`, taking the residual function and the initial guess),
feeding each solution to the next pressure as initial guess.  `fsolve`
is unbracketed and never raises: it always returns its final iterate,
so the loop is total. -/
def interpIsentropeLoop (fs : (ℚ → ℚ) → ℚ → ℚ) (interp : ℚ → ℚ → ℚ)
    (entropy : ℚ) : List ℚ → ℚ → List ℚ
  | [], _sol => []
  | P :: Ps, sol =>
    let s := fs (fun T => interp P T - entropy) sol
    s :: interpIsentropeLoop fs interp entropy Ps s

/-- The notebook's `interp_isentrope(interp, pressures, entropy, T_guess)`. -/
def interp_isentrope (fs : (ℚ → ℚ) → ℚ → ℚ) (interp : ℚ → ℚ → ℚ)
    (pressures : List ℚ) (entropy T_guess : ℚ) : List ℚ :=
  interpIsentropeLoop fs interp entropy pressures T_guess

/-- Model of `np.linspace a b n`: `n` evenly spaced samples including
both endpoints (`[a]` for `n = 1`, `[]` for `n = 0`). -/
def linspace (a b : ℚ) (n : ℕ) : List ℚ :=
  if n = 1 then [a]
  else (List.range n).map fun i : ℕ => a + (b - a) * (i : ℚ) / ((n : ℚ) - 1)

/-- Model of `np.gradient` on a 1-D array with unit spacing: one-sided
differences at the edges, central differences inside.  (numpy raises
for arrays of fewer than two elements; the model returns `[]` there,
and every claim that uses it assumes at least two grid points.) -/
def npGradient (l : List ℚ) : List ℚ :=
  if l.length < 2 then []
  else (List.range l.length).map fun i =>
    if i = 0 then l.getD 1 0 - l.getD 0 0
    else if i = l.length - 1 then l.getD (l.length - 1) 0 - l.getD (l.length - 2) 0
    else (l.getD (i + 1) 0 - l.getD (i - 1) 0) / 2

/-- Fold model of `np.max` on a list of nonnegative values (base 0). -/
def maxOver (l : List ℚ) : ℚ :=
  l.foldr (fun x m => max x m) 0

/-- Model of `np.max (np.abs l)` (base 0, exact for nonempty lists). -/
def maxAbsOver (l : List ℚ) : ℚ :=
  l.foldr (fun x m => max |x| m) 0

/-- The temperature smoothing width computed in `relaxed_profile`:
`np.min([max_temperature_stdev, temperature_smoothing_factor *
pressure_stdev * np.max(np.abs(np.gradient(iso(grid_pressures)))) /
(grid_pressures[1] - grid_pressures[0])])`. -/
def temperature_stdev (iso : ℚ → ℚ) (grid_pressures : List ℚ)
    (pressure_stdev temperature_smoothing_factor max_temperature_stdev : ℚ) : ℚ :=
  min max_temperature_stdev
    (temperature_smoothing_factor * pressure_stdev *
      maxAbsOver (npGradient (grid_pressures.map iso)) /
      (grid_pressures.getD 1 0 - grid_pressures.getD 0 0))

/-- Spec-side reading of the temperature smoothing width of claim C3:
the factor times the pressure width times the largest grid value of
the isentrope's (per-index) temperature gradient divided by the grid
pressure spacing, capped at `max_temperature_stdev`. -/
def tempStdevSpec (iso : ℚ → ℚ) (grid_pressures : List ℚ)
    (pressure_stdev temperature_smoothing_factor max_temperature_stdev : ℚ) : ℚ :=
  min max_temperature_stdev
    (temperature_smoothing_factor * pressure_stdev *
      maxOver ((npGradient (grid_pressures.map iso)).map fun g =>
        |g| / (grid_pressures.getD 1 0 - grid_pressures.getD 0 0)))

/-- The window half-width `Tdiff_max = 50 + 30 + truncate *
temperature_stdev` of `relaxed_profile`. -/
def Tdiff_max (iso : ℚ → ℚ) (grid_pressures : List ℚ)
    (pressure_stdev temperature_smoothing_factor max_temperature_stdev
     truncate : ℚ) : ℚ :=
  50 + 30 + truncate * temperature_stdev iso grid_pressures
    pressure_stdev temperature_smoothing_factor max_temperature_stdev

/-- The flattened `(P, T)` mesh of `np.meshgrid(grid_pressures,
grid_temperatures)`: row-major over temperatures, so node
`i * len(gp) + j` is `(gp[j], gt[i])`. -/
def gridNodes (gp gt : List ℚ) : List (ℚ × ℚ) :=
  gt.flatMap fun T => gp.map fun P => (P, T)

/-- The windowed entropy grid of `relaxed_profile`: starting from
`np.zeros_like`, the property table is evaluated exactly at the nodes
whose `Tdiff = |iso(P) - T|` is below `Tdiff_max`; the masked
assignment is rendered as a pointwise conditional. -/
def grid_entropies (rock : RockTable) (iso : ℚ → ℚ) (gp gt : List ℚ)
    (pressure_stdev temperature_smoothing_factor max_temperature_stdev
     truncate : ℚ) : List ℚ :=
  (gridNodes gp gt).map fun node =>
    if |iso node.1 - node.2| < Tdiff_max iso gp pressure_stdev
        temperature_smoothing_factor max_temperature_stdev truncate then
      rock.S node.1 node.2
    else 0

/-- The windowed volume grid of `relaxed_profile` (same mask as the
entropy grid). -/
def grid_volumes (rock : RockTable) (iso : ℚ → ℚ) (gp gt : List ℚ)
    (pressure_stdev temperature_smoothing_factor max_temperature_stdev
     truncate : ℚ) : List ℚ :=
  (gridNodes gp gt).map fun node =>
    if |iso node.1 - node.2| < Tdiff_max iso gp pressure_stdev
        temperature_smoothing_factor max_temperature_stdev truncate then
      rock.V node.1 node.2
    else 0

/-- Rational stand-in for the float constant `np.pi` (the decimal
literal that denotes the same IEEE double). -/
def np_pi : ℚ := 3.141592653589793

/-- Rational stand-in for `burnman.constants.G` (CODATA 2014 value used
by burnman, an exact decimal float literal). -/
def grav_constant : ℚ := 6.67408e-11

/-- One pass of the fixed-point loop of
`compute_depth_gravity_profiles`: spline fits of density and gravity
against pressure, hydrostatic integration of depth from `0` at the
first pressure, conversion to radius, a density-of-radius spline, and
integration of the enclosed-mass equation from
`surface_gravity * radii[0]^2` inward, divided by `radius^2`.
`spline` models `scipy.interpolate.UnivariateSpline` (data
`x`-list, data `y`-list, query point); `odeintM` models
`scipy.integrate.odeint` (integrand `f y t`, initial value, sample
points), whose output is sampled at the given points with the first
sample equal to the initial value. -/
def dgStep (spline : List ℚ → List ℚ → ℚ → ℚ)
    (odeintM : (ℚ → ℚ → ℚ) → ℚ → List ℚ → List ℚ)
    (pressures densities : List ℚ) (surface_gravity outer_radius : ℚ)
    (gravity : List ℚ) : List ℚ × List ℚ :=
  let rhofunc := spline pressures densities
  let gfunc := spline pressures gravity
  let depths := odeintM (fun _p x => 1 / (gfunc x * rhofunc x)) 0 pressures
  let radii := depths.map fun d => outer_radius - d
  let rhofunc2 := spline radii.reverse densities.reverse
  let poisson := fun _p x => 4 * np_pi * grav_constant * rhofunc2 x * x * x
  let gravity2 := odeintM poisson
    (surface_gravity * radii.headD 0 * radii.headD 0) radii
  (depths, (gravity2.zip radii).map fun gr => gr.1 / gr.2 / gr.2)

/-- Iterate `dgStep` a given number of times, carrying the
`(depths, gravity)` state of the Python loop (the depths component is
overwritten by every pass; only the gravity component feeds back). -/
def dgIter (spline : List ℚ → List ℚ → ℚ → ℚ)
    (odeintM : (ℚ → ℚ → ℚ) → ℚ → List ℚ → List ℚ)
    (pressures densities : List ℚ) (surface_gravity outer_radius : ℚ) :
    ℕ → List ℚ × List ℚ → List ℚ × List ℚ
  | 0, s => s
  | n + 1, s => dgIter spline odeintM pressures densities surface_gravity
      outer_radius n
      (dgStep spline odeintM pressures densities surface_gravity
        outer_radius s.2)

/-- The notebook's `compute_depth_gravity_profiles`: five fixed-point
passes starting from the constant guess `gravity = [surface_gravity] *
len(pressures)`. -/
def compute_depth_gravity_profiles (spline : List ℚ → List ℚ → ℚ → ℚ)
    (odeintM : (ℚ → ℚ → ℚ) → ℚ → List ℚ → List ℚ)
    (pressures densities : List ℚ) (surface_gravity outer_radius : ℚ) :
    List ℚ × List ℚ :=
  dgIter spline odeintM pressures densities surface_gravity outer_radius 5
    ([], pressures.map fun _ => surface_gravity)

/-- Bundle of the external numeric-library functions the notebook
calls.  `brentqIter` is the Brent iteration inside
`scipy.optimize.brentq` (used only after the concrete bracket check of
`brentq`); `fsolve` is `scipy.optimize.fsolve` on a one-dimensional
system; `spline` is `scipy.interpolate.UnivariateSpline`; `odeint` is
`scipy.integrate.odeint`; `smooth` is
`burnman.tools.interp_smoothed_array_and_derivatives`, taking the
flattened grid array, the `x` (pressure) and `y` (temperature) grid
values, the two smoothing standard deviations and the truncation
radius, and returning the smoothed interpolant together with its two
partial-derivative interpolants (value, d/dP, d/dT). -/
structure NumLib where
  brentqIter : (ℚ → ℚ) → ℚ → ℚ → ℚ
  fsolve : (ℚ → ℚ) → ℚ → ℚ
  spline : List ℚ → List ℚ → ℚ → ℚ
  odeint : (ℚ → ℚ → ℚ) → ℚ → List ℚ → List ℚ
  smooth : List ℚ → List ℚ → List ℚ → ℚ → ℚ → ℚ →
    (ℚ → ℚ → ℚ) × (ℚ → ℚ → ℚ) × (ℚ → ℚ → ℚ)

/-- Modelled from the spec: the body of
`burnman.tools.interp_smoothed_array_and_derivatives` is not part of
the sources under verification (only its call sites are), so its
zero-width behaviour is taken from the specification, which requires
Gaussian smoothing with both standard deviations zero to be the
identity (spec sections 4.2 and 8).  The predicate states that a
smoothing operator, queried with zero widths, reproduces the
underlying entropy function it was sampled from. -/
def SmoothZeroWidthId
    (smooth : List ℚ → List ℚ → List ℚ → ℚ → ℚ → ℚ →
      (ℚ → ℚ → ℚ) × (ℚ → ℚ → ℚ) × (ℚ → ℚ → ℚ))
    (f : ℚ → ℚ → ℚ) : Prop :=
  ∀ arr xs ys truncate, (smooth arr xs ys 0 0 truncate).1 = f

/-- The tuple returned by `relaxed_profile`. -/
structure ProfileResult where
  smoothed_temperatures : List ℚ
  depths : List ℚ
  gravity : List ℚ
  densities : List ℚ
  alphas_relaxed : List ℚ
  compressibilities_relaxed : List ℚ
  specific_heats_relaxed : List ℚ
  Vss : List ℚ
  Vps : List ℚ
  dVsdT : List ℚ
  dVpdT : List ℚ

/-- Pointwise model of `rock.evaluate` / vectorised numpy arithmetic
over two equal-length arrays. -/
def zipMap2 (f : ℚ → ℚ → ℚ) (xs ys : List ℚ) : List ℚ :=
  (xs.zip ys).map fun p => f p.1 p.2

/-- Everything `relaxed_profile` does after the unsmoothed isentrope
has been solved: build the smoothing grid with the temperature window,
smooth entropy and volume, re-solve the isentrope on the smoothed
entropy interpolant, evaluate densities, integrate depth and gravity,
and derive the relaxed thermodynamic and seismic properties. -/
def relaxedRest (lib : NumLib) (rock : RockTable)
    (potential_temperature max_pressure surface_gravity outer_radius : ℚ)
    (n_points : ℕ) (n_gridpoints : ℕ × ℕ)
    (pressure_stdev temperature_smoothing_factor max_temperature_stdev
     truncate : ℚ) (temperatures : List ℚ) : ProfileResult :=
  let entropy := rock.S 1e5 potential_temperature
  let pressures := linspace 1e5 max_pressure n_points
  let isentrope_spline := lib.spline pressures temperatures
  let grid_pressures := linspace rock.bounds.1.1 rock.bounds.1.2 n_gridpoints.1
  let grid_temperatures := linspace rock.bounds.2.1 rock.bounds.2.2 n_gridpoints.2
  let ent_grid := grid_entropies rock isentrope_spline grid_pressures
    grid_temperatures pressure_stdev temperature_smoothing_factor
    max_temperature_stdev truncate
  let vol_grid := grid_volumes rock isentrope_spline grid_pressures
    grid_temperatures pressure_stdev temperature_smoothing_factor
    max_temperature_stdev truncate
  let t_stdev := temperature_stdev isentrope_spline grid_pressures
    pressure_stdev temperature_smoothing_factor max_temperature_stdev
  let S_interps := lib.smooth ent_grid grid_pressures grid_temperatures
    pressure_stdev t_stdev truncate
  let V_interps := lib.smooth vol_grid grid_pressures grid_temperatures
    pressure_stdev t_stdev truncate
  let smoothed_temperatures := interp_isentrope lib.fsolve S_interps.1
    pressures entropy potential_temperature
  let densities := zipMap2 rock.rho pressures smoothed_temperatures
  let dg := compute_depth_gravity_profiles lib.spline lib.odeint pressures
    densities surface_gravity outer_radius
  let volumes := zipMap2 V_interps.1 pressures smoothed_temperatures
  let dSdT := zipMap2 S_interps.2.2 pressures smoothed_temperatures
  let dVdT := zipMap2 V_interps.2.2 pressures smoothed_temperatures
  let dVdP := zipMap2 V_interps.2.1 pressures smoothed_temperatures
  let alphas_relaxed := zipMap2 (fun dv v => dv / v) dVdT volumes
  let compressibilities_relaxed := zipMap2 (fun dv v => -dv / v) dVdP volumes
  let specific_heats_relaxed := zipMap2 (fun T ds => T * ds / rock.molar_mass)
    smoothed_temperatures dSdT
  let dT : ℚ := 0.1
  let Vpsub := zipMap2 (fun p T => rock.p_wave_velocity p (T - dT / 2))
    pressures smoothed_temperatures
  let Vssub := zipMap2 (fun p T => rock.shear_wave_velocity p (T - dT / 2))
    pressures smoothed_temperatures
  let Vpadd := zipMap2 (fun p T => rock.p_wave_velocity p (T + dT / 2))
    pressures smoothed_temperatures
  let Vsadd := zipMap2 (fun p T => rock.shear_wave_velocity p (T + dT / 2))
    pressures smoothed_temperatures
  let Vps := zipMap2 (fun a b => (a + b) / 2) Vpadd Vpsub
  let Vss := zipMap2 (fun a b => (a + b) / 2) Vsadd Vssub
  let dVpdT := zipMap2 (fun a b => (a - b) / dT) Vpadd Vpsub
  let dVsdT := zipMap2 (fun a b => (a - b) / dT) Vsadd Vssub
  ProfileResult.mk smoothed_temperatures dg.1 dg.2 densities alphas_relaxed
    compressibilities_relaxed specific_heats_relaxed Vss Vps dVsdT dVpdT

/-- The notebook's `relaxed_profile`: solve the unsmoothed isentrope
from the entropy at `(1e5 Pa, potential_temperature)` over
`linspace(1e5, max_pressure, n_points)`, then hand over to
`relaxedRest`; a solver error aborts the computation. -/
def relaxed_profile (lib : NumLib) (rock : RockTable)
    (potential_temperature max_pressure surface_gravity outer_radius : ℚ)
    (n_points : ℕ) (n_gridpoints : ℕ × ℕ)
    (pressure_stdev temperature_smoothing_factor max_temperature_stdev
     truncate : ℚ) : Except SolverErr ProfileResult :=
  let entropy := rock.S 1e5 potential_temperature
  let pressures := linspace 1e5 max_pressure n_points
  match isentrope lib.brentqIter rock pressures entropy potential_temperature with
  | .error e => .error e
  | .ok temperatures =>
    .ok (relaxedRest lib rock potential_temperature max_pressure
      surface_gravity outer_radius n_points n_gridpoints pressure_stdev
      temperature_smoothing_factor max_temperature_stdev truncate
      temperatures)

/-- Model of `np.interp x xp fp` for increasing `xp`: linear
interpolation, clamped to the first/last data value outside the data
range. -/
def npInterp (x : ℚ) : List ℚ → List ℚ → ℚ
  | x1 :: x2 :: xs, f1 :: f2 :: fs =>
    if x ≤ x1 then f1
    else if x ≤ x2 then f1 + (f2 - f1) * (x - x1) / (x2 - x1)
    else npInterp x (x2 :: xs) (f2 :: fs)
  | [_], f1 :: _ => f1
  | _, _ => 0

/-- The equally spaced depth samples of `update_plot`:
`np.linspace(depths[0], depths[-1], n_points)`. -/
def depthsEq (depths : List ℚ) (n_points : ℕ) : List ℚ :=
  linspace (depths.headD 0) (depths.getLastD 0) n_points

/-- The resampled pressures of `update_plot`: the depth-to-pressure
spline evaluated on the equally spaced depths. -/
def pressuresEq (spline : List ℚ → List ℚ → ℚ → ℚ)
    (depths pressures : List ℚ) (n_points : ℕ) : List ℚ :=
  (depthsEq depths n_points).map (spline depths pressures)

/-- One resampled property column of `update_plot`:
`np.interp(pressures_eq, pressures, col)`. -/
def resampleColumn (pressures_eq pressures col : List ℚ) : List ℚ :=
  pressures_eq.map fun pe => npInterp pe pressures col

/-- The column list handed to `np.savetxt` in `update_plot`, in source
order: depth, pressure, temperature, density, gravity, thermal
expansivity, specific heat, compressibility, Vs, Vp, dVs/dT, dVp/dT. -/
def aspectColumns (depths_eq pressures_eq smoothed_temperatures densities
    gravity alphas_relaxed specific_heats_relaxed compressibilities_relaxed
    Vss Vps dVsdT dVpdT : List ℚ) : List (List ℚ) :=
  [depths_eq, pressures_eq, smoothed_temperatures, densities, gravity,
   alphas_relaxed, specific_heats_relaxed, compressibilities_relaxed,
   Vss, Vps, dVsdT, dVpdT]

/-- The data rows `np.savetxt` writes for `X = np.array(cols).T`: row
`i` holds the `i`-th entry of every column. -/
def savetxtRows (cols : List (List ℚ)) (n : ℕ) : List (List ℚ) :=
  (List.range n).map fun i => cols.map fun c => c.getD i 0

/-- The precision field of the `np.savetxt` format `fmt='%.10e'`. -/
def aspectFmtPrec : ℕ := 10

/-- Mantissa printed by the C format `%.pe` for a nonzero rational:
with `e = Int.log 10 |q|` the decimal exponent, the mantissa is
`|q| / 10^e` rounded to `p` digits after the point (so `p + 1`
significant digits); a carry to `10^(p+1)` renormalises to mantissa
`1.0…0` with the exponent incremented. -/
def sciMantissa (p : ℕ) (q : ℚ) : ℕ :=
  let e := Int.log 10 |q|
  let n := round (|q| * (10 : ℚ) ^ ((p : ℤ) - e))
  if n = 10 ^ (p + 1) then 10 ^ p else n.toNat

/-- Fixed text of the `np.savetxt` header before the point count. -/
def aspectHeaderPre : String :=
  "# This ASPECT-compatible file contains material properties calculated along an isentrope by the BurnMan software.\n# POINTS: "

/-- Fixed text of the `np.savetxt` header after the point count: the
column-semantics comment line and the column-name line. -/
def aspectHeaderPost : String :=
  " \n# depth (m), pressure (Pa), temperature (K), density (kg/m^3), gravity (m/s^2), thermal expansivity (1/K), specific heat (J/K/kg), compressibility (1/Pa), seismic Vs (m/s), seismic Vp (m/s), seismic dVs/dT (m/s/K), seismic dVp/dT (m/s/K)\ndepth                   pressure                temperature             density                 gravity                 thermal_expansivity     specific_heat           compressibility \tseismic_Vs              seismic_Vp              seismic_dVs_dT          seismic_dVp_dT"

/-- The header string passed to `np.savetxt` in `update_plot`, naming
the point count and the column semantics. -/
def aspectHeader (n_points : ℕ) : String :=
  aspectHeaderPre ++ toString n_points ++ aspectHeaderPost

/-- Stateful model of the evaluator object: the immutable property
table together with the `(pressure, temperature)` currently set by
`set_state`. -/
structure Evaluator where
  table : RockTable
  current : ℚ × ℚ

/-- Model of `rock.set_state(P, T)`: overwrite the current state. -/
def set_state (e : Evaluator) (P T : ℚ) : Evaluator :=
  { table := e.table, current := (P, T) }

/-- Model of reading `rock.S` after `set_state`. -/
def currentS (e : Evaluator) : ℚ :=
  e.table.S e.current.1 e.current.2

/-- Stateful model of the closure `_deltaS(T, S, P, rock)` inside
`isentrope`: it mutates the evaluator via `set_state(P, T)` and
returns `rock.S - S`. -/
def deltaS_st (S0 P T : ℚ) (e : Evaluator) : ℚ × Evaluator :=
  let e2 := set_state e P T
  (currentS e2 - S0, e2)

/-- Fuelled bisection modelling the bracketed iteration inside
`scipy.optimize.brentq`, threading the evaluator state mutated by each
residual evaluation. -/
def bisectGo (f : ℚ → Evaluator → ℚ × Evaluator) :
    ℕ → ℚ → ℚ → ℚ → Evaluator → ℚ × Evaluator
  | 0, a, _fa, b, e =>
    let m := (a + b) / 2
    let r := f m e
    (m, r.2)
  | n + 1, a, fa, b, e =>
    let m := (a + b) / 2
    let r := f m e
    if fa * r.1 ≤ 0 then bisectGo f n a fa m r.2
    else bisectGo f n m r.1 b r.2

/-- Stateful model of `scipy.optimize.brentq`: evaluate the residual at
both ends (mutating the evaluator), raise `RootNotBracketed` when the
signs agree, otherwise run the bracketed iteration. -/
def brentqSt (f : ℚ → Evaluator → ℚ × Evaluator) (fuel : ℕ) (a b : ℚ)
    (e : Evaluator) : Except SolverErr (ℚ × Evaluator) :=
  let ra := f a e
  let rb := f b ra.2
  if ra.1 * rb.1 > 0 then .error .RootNotBracketed
  else .ok (bisectGo f fuel a ra.1 b rb.2)

/-- Stateful counterpart of `isentropeLoop`, threading the evaluator
through every residual evaluation performed by the root-finder. -/
def isentropeStLoop (fuel : ℕ) (S0 : ℚ) :
    List ℚ → ℚ → Evaluator → Except SolverErr (List ℚ × Evaluator)
  | [], _sol, e => .ok ([], e)
  | P :: Ps, _sol, e =>
    match brentqSt (deltaS_st S0 P) fuel e.table.bounds.2.1
        e.table.bounds.2.2 e with
    | .error err => .error err
    | .ok r =>
      match isentropeStLoop fuel S0 Ps r.1 r.2 with
      | .error err => .error err
      | .ok r2 => .ok (r.1 :: r2.1, r2.2)

/-- Stateful model of the notebook's `isentrope`, exposing the
evaluator state left behind by the root-finding loop. -/
def isentropeSt (fuel : ℕ) (e : Evaluator) (pressures : List ℚ)
    (entropy T_guess : ℚ) : Except SolverErr (List ℚ × Evaluator) :=
  isentropeStLoop fuel entropy pressures T_guess e

/-- Midpoint stub standing in for the Brent iteration in the concrete
witness instantiations. -/
def brentqIterW : (ℚ → ℚ) → ℚ → ℚ → ℚ := fun _f a b => (a + b) / 2

/-- Witness evaluator: entropy equal to temperature, unit density and
velocities, pressure bounds `[0, 10]`, temperature bounds `[0, 2]`. -/
def rockW : RockTable :=
  ⟨fun _P T => T, fun _P T => T, fun _ _ => 1, fun _ _ => 1, fun _ _ => 1,
    ((0, 10), (0, 2)), 1⟩

/-- Witness evaluator with distinguishable entropy and volume values. -/
def rockC2 : RockTable :=
  ⟨fun P T => P + T + 3, fun P T => P * T + 5, fun _ _ => 1, fun _ _ => 1,
    fun _ _ => 1, ((0, 10), (0, 2)), 1⟩

/-- Constant spline stub for witnesses. -/
def splineW : List ℚ → List ℚ → ℚ → ℚ := fun _ _ _ => 1

/-- Witness integrator satisfying the `odeint` contract: it returns the
initial value at every requested sample point. -/
def odeintW : (ℚ → ℚ → ℚ) → ℚ → List ℚ → List ℚ :=
  fun _f y0 ts => ts.map fun _ => y0

/-- Constant-solution stub for `fsolve` in witnesses. -/
def fsolveW : (ℚ → ℚ) → ℚ → ℚ := fun _g _x0 => 1

/-- Stub for `fsolve` modelling a stalled `hybrd` iteration: scipy's
`fsolve` does not raise on failure, it returns its last iterate (here
the initial guess) and reports through its `ier` flag only. -/
def fsolveStall : (ℚ → ℚ) → ℚ → ℚ := fun _g x0 => x0

/-- Interpolant used by the C5 counterexample: entropy equal to the
temperature, so over temperatures in `[0, 2]` its range is `[0, 2]`. -/
def interpC5 : ℚ → ℚ → ℚ := fun _P T => T

/-- Witness library bundle: midpoint Brent stub, constant `fsolve`,
constant spline, initial-value integrator, and a smoothing stub whose
value interpolant is the identity in temperature. -/
def libW : NumLib :=
  ⟨brentqIterW, fsolveW, splineW, odeintW,
    fun _ _ _ _ _ _ => (fun _P T => T, fun _ _ => 0, fun _ _ => 0)⟩

/-- Evaluator instance for the C8 counterexample, with current state
`(1e5, 1550)` as left by `rock.set_state(1.e5, potential_temperature)`
in `setup`. -/
def evalC8 : Evaluator := ⟨rockW, (1e5, 1550)⟩

/-- Second evaluator instance, used by the C8 witness. -/
def evalC8b : Evaluator := ⟨rockW, (7, 7)⟩

theorem isentropeLoop_guess (it : (ℚ → ℚ) → ℚ → ℚ → ℚ) (rock : RockTable)
    (S0 : ℚ) (ps : List ℚ) (g1 g2 : ℚ) :
    isentropeLoop it rock S0 ps g1 = isentropeLoop it rock S0 ps g2 := by
  cases ps <;> rfl

/-- C9: the initial temperature guess argument `T_guess` of `isentrope`
has no effect on the result: the Python variable `sol` it initialises
is overwritten by the bracketed `brentq` solve (which always uses the
evaluator's full temperature bounds) before it is ever read, so any two
guesses give identical temperature arrays. -/
theorem isentrope_guess_independent_C9 (it : (ℚ → ℚ) → ℚ → ℚ → ℚ)
    (rock : RockTable) (pressures : List ℚ) (entropy g1 g2 : ℚ) :
    isentrope it rock pressures entropy g1 =
      isentrope it rock pressures entropy g2 :=
  isentropeLoop_guess it rock entropy pressures g1 g2

theorem maxOver_cons (x : ℚ) (l : List ℚ) :
    maxOver (x :: l) = max x (maxOver l) := rfl

theorem maxAbsOver_cons (x : ℚ) (l : List ℚ) :
    maxAbsOver (x :: l) = max |x| (maxAbsOver l) := rfl

theorem maxOver_map_abs_div (l : List ℚ) (c : ℚ) (hc : 0 < c) :
    maxOver (l.map fun x => |x| / c) = maxAbsOver l / c := by
  induction l with
  | nil => simp [maxOver, maxAbsOver]
  | cons x xs ih =>
    rw [List.map_cons, maxOver_cons, ih, maxAbsOver_cons,
      max_div_div_right (le_of_lt hc)]

/-- C3: for any configuration whose pressure grid has at least two
(increasing) points, the temperature smoothing width used by the grid
builder equals `min(max_temperature_stdev, temperature_smoothing_factor
* pressure_stdev * max(|gradient of the isentrope temperatures|) /
grid_pressure_spacing)`, the formula of the claim (the positive grid
spacing factors through the maximum). -/
theorem temperature_stdev_formula_C3 (iso : ℚ → ℚ) (gp : List ℚ)
    (pstdev fac ms : ℚ) (hlen : 2 ≤ gp.length)
    (hmono : List.Chain' (· < ·) gp) :
    temperature_stdev iso gp pstdev fac ms = tempStdevSpec iso gp pstdev fac ms := by
  match gp, hlen with
  | a :: b :: rest, _ =>
    have hab : a < b := (List.chain'_cons.mp hmono).1
    have hc : (0 : ℚ) <
        (a :: b :: rest).getD 1 0 - (a :: b :: rest).getD 0 0 := by
      simpa [List.getD] using sub_pos.mpr hab
    unfold temperature_stdev tempStdevSpec
    rw [maxOver_map_abs_div _ _ hc, mul_div_assoc]

/-- Witness for C3 at a concrete two-point grid. -/
theorem temperature_stdev_formula_C3_witness :
    temperature_stdev (fun x => x) [0, 1] 1 1 5 =
      tempStdevSpec (fun x => x) [0, 1] 1 1 5 :=
  temperature_stdev_formula_C3 (fun x => x) [0, 1] 1 1 5 (by decide)
    (by norm_num [List.chain'_cons])

/-- C2: the relaxation grid builder evaluates the property table exactly
at the grid nodes whose temperature is within `50 + 30 + truncate *
temperature_stdev` of the unsmoothed isentrope temperature at that
node's pressure, and every node outside that window keeps the value
zero in both the entropy and the volume grid arrays. -/
theorem grid_window_C2 (rock : RockTable) (iso : ℚ → ℚ) (gp gt : List ℚ)
    (pstdev fac ms tr : ℚ) (i : ℕ) (P T : ℚ)
    (hnode : (gridNodes gp gt)[i]? = some (P, T)) :
    (|iso P - T| < Tdiff_max iso gp pstdev fac ms tr →
      (grid_entropies rock iso gp gt pstdev fac ms tr)[i]? = some (rock.S P T) ∧
      (grid_volumes rock iso gp gt pstdev fac ms tr)[i]? = some (rock.V P T)) ∧
    (¬ |iso P - T| < Tdiff_max iso gp pstdev fac ms tr →
      (grid_entropies rock iso gp gt pstdev fac ms tr)[i]? = some 0 ∧
      (grid_volumes rock iso gp gt pstdev fac ms tr)[i]? = some 0) := by
  constructor <;> intro h <;>
    simp [grid_entropies, grid_volumes, List.getElem?_map, hnode, h]

/-- Witness for C2 at a concrete grid node inside the window. -/
theorem grid_window_C2_witness :
    (grid_entropies rockC2 (fun _ => 0) [0, 1] [0, 100] 0 0 5 4)[1]? =
      some (rockC2.S 1 0) ∧
    (grid_volumes rockC2 (fun _ => 0) [0, 1] [0, 100] 0 0 5 4)[1]? =
      some (rockC2.V 1 0) :=
  (grid_window_C2 rockC2 (fun _ => 0) [0, 1] [0, 100] 0 0 5 4 1 1 0
    (by decide)).1
    (by norm_num [Tdiff_max, temperature_stdev, maxAbsOver, npGradient, min_def])

theorem odeintW_head (f : ℚ → ℚ → ℚ) (y0 : ℚ) (ts : List ℚ) (h : ts ≠ []) :
    (odeintW f y0 ts).head? = some y0 := by
  cases ts with
  | nil => exact absurd rfl h
  | cons a t => rfl

theorem dgStep_first (spline : List ℚ → List ℚ → ℚ → ℚ)
    (odeintM : (ℚ → ℚ → ℚ) → ℚ → List ℚ → List ℚ)
    (ps ds : List ℚ) (sg r0 : ℚ) (grav : List ℚ)
    (hhead : ∀ f y0 ts, ts ≠ [] → (odeintM f y0 ts).head? = some y0)
    (hps : ps ≠ []) (hr0 : r0 ≠ 0) :
    (dgStep spline odeintM ps ds sg r0 grav).1.head? = some 0 ∧
    (dgStep spline odeintM ps ds sg r0 grav).2.head? = some sg := by
  have hdep : (odeintM (fun _p x => 1 / (spline ps grav x * spline ps ds x))
      0 ps).head? = some 0 := hhead _ _ _ hps
  obtain ⟨dtl, hdtl⟩ : ∃ t,
      odeintM (fun _p x => 1 / (spline ps grav x * spline ps ds x)) 0 ps
        = 0 :: t := by
    cases hl : odeintM (fun _p x => 1 / (spline ps grav x * spline ps ds x))
        0 ps with
    | nil => rw [hl] at hdep; simp at hdep
    | cons a t =>
      rw [hl] at hdep
      simp only [List.head?_cons, Option.some.injEq] at hdep
      exact ⟨t, by rw [hdep]⟩
  simp only [dgStep, hdtl, List.map_cons, sub_zero, List.headD_cons]
  refine ⟨rfl, ?_⟩
  have hg2 : (odeintM (fun _p x => 4 * np_pi * grav_constant *
      spline ((r0 :: dtl.map fun d => r0 - d).reverse) ds.reverse x * x * x)
      (sg * r0 * r0) (r0 :: dtl.map fun d => r0 - d)).head? =
      some (sg * r0 * r0) := hhead _ _ _ (by simp)
  obtain ⟨gtl, hgtl⟩ : ∃ t,
      odeintM (fun _p x => 4 * np_pi * grav_constant *
        spline ((r0 :: dtl.map fun d => r0 - d).reverse) ds.reverse x * x * x)
        (sg * r0 * r0) (r0 :: dtl.map fun d => r0 - d) = (sg * r0 * r0) :: t := by
    cases hl : odeintM (fun _p x => 4 * np_pi * grav_constant *
        spline ((r0 :: dtl.map fun d => r0 - d).reverse) ds.reverse x * x * x)
        (sg * r0 * r0) (r0 :: dtl.map fun d => r0 - d) with
    | nil => rw [hl] at hg2; simp at hg2
    | cons a t =>
      rw [hl] at hg2
      simp only [List.head?_cons, Option.some.injEq] at hg2
      exact ⟨t, by rw [hg2]⟩
  rw [hgtl]
  simp only [List.zip_cons_cons, List.map_cons, List.head?_cons,
    Option.some.injEq]
  rw [mul_div_cancel_right₀ _ hr0, mul_div_cancel_right₀ _ hr0]

theorem dgIter_first (spline : List ℚ → List ℚ → ℚ → ℚ)
    (odeintM : (ℚ → ℚ → ℚ) → ℚ → List ℚ → List ℚ)
    (ps ds : List ℚ) (sg r0 : ℚ)
    (hhead : ∀ f y0 ts, ts ≠ [] → (odeintM f y0 ts).head? = some y0)
    (hps : ps ≠ []) (hr0 : r0 ≠ 0) :
    ∀ (n : ℕ) (s : List ℚ × List ℚ), 1 ≤ n →
      (dgIter spline odeintM ps ds sg r0 n s).1.head? = some 0 ∧
      (dgIter spline odeintM ps ds sg r0 n s).2.head? = some sg := by
  intro n
  induction n with
  | zero => intro s h; exact absurd h (by omega)
  | succ k ih =>
    intro s _
    cases k with
    | zero =>
      simpa [dgIter] using dgStep_first spline odeintM ps ds sg r0 s.2 hhead hps hr0
    | succ m =>
      show (dgIter spline odeintM ps ds sg r0 (m + 1)
          (dgStep spline odeintM ps ds sg r0 s.2)).1.head? = some 0 ∧ _
      exact ih _ (by omega)

/-- C4: for valid input (strictly increasing, nonempty pressures,
positive densities, positive surface gravity and outer radius) and an
integrator meeting the `odeint` contract (output sampled at the input
points, first sample equal to the initial value), the depth/gravity
integrator returns depth `0` and gravity equal to the input surface
gravity at the first (minimum-pressure) sample. -/
theorem depth_gravity_surface_C4 (spline : List ℚ → List ℚ → ℚ → ℚ)
    (odeintM : (ℚ → ℚ → ℚ) → ℚ → List ℚ → List ℚ)
    (pressures densities : List ℚ) (surface_gravity outer_radius : ℚ)
    (hhead : ∀ f y0 ts, ts ≠ [] → (odeintM f y0 ts).head? = some y0)
    (hmono : List.Chain' (· < ·) pressures) (hne : pressures ≠ [])
    (hdens : ∀ d ∈ densities, 0 < d) (hsg : 0 < surface_gravity)
    (hr0 : 0 < outer_radius) :
    (compute_depth_gravity_profiles spline odeintM pressures densities
      surface_gravity outer_radius).1.head? = some 0 ∧
    (compute_depth_gravity_profiles spline odeintM pressures densities
      surface_gravity outer_radius).2.head? = some surface_gravity :=
  dgIter_first spline odeintM pressures densities surface_gravity
    outer_radius hhead hne (ne_of_gt hr0) 5 _ (by omega)

/-- Witness for C4 at a concrete two-point profile. -/
theorem depth_gravity_surface_C4_witness :
    (compute_depth_gravity_profiles splineW odeintW [1, 2] [1, 1] 9 5).1.head?
      = some 0 ∧
    (compute_depth_gravity_profiles splineW odeintW [1, 2] [1, 1] 9 5).2.head?
      = some 9 :=
  depth_gravity_surface_C4 splineW odeintW [1, 2] [1, 1] 9 5 odeintW_head
    (by norm_num [List.chain'_cons]) (by decide)
    (by intro d hd; rcases List.mem_pair.mp hd with rfl | rfl <;> norm_num)
    (by norm_num) (by norm_num)

theorem isentropeLoop_residual (it : (ℚ → ℚ) → ℚ → ℚ → ℚ) (rock : RockTable)
    (S0 tol : ℚ) :
    ∀ (ps : List ℚ) (g : ℚ) (Ts : List ℚ),
      (∀ P ∈ ps, |rock.S P (it (fun T => rock.S P T - S0)
        rock.bounds.2.1 rock.bounds.2.2) - S0| < tol) →
      isentropeLoop it rock S0 ps g = .ok Ts →
      Ts.length = ps.length ∧
      ∀ i, i < ps.length → ∃ P T, ps[i]? = some P ∧ Ts[i]? = some T ∧
        |rock.S P T - S0| < tol := by
  intro ps
  induction ps with
  | nil =>
    intro g Ts _ hok
    simp only [isentropeLoop, Except.ok.injEq] at hok
    subst hok
    exact ⟨rfl, fun i hi => absurd hi (by simp)⟩
  | cons P Ps ih =>
    intro g Ts hs hok
    simp only [isentropeLoop, brentq] at hok
    by_cases hbr : (rock.S P rock.bounds.2.1 - S0) *
        (rock.S P rock.bounds.2.2 - S0) > 0
    · rw [if_pos hbr] at hok
      exact absurd hok (by simp)
    · rw [if_neg hbr] at hok
      split at hok
      · next e heq => exact absurd heq (by simp)
      · next sol heq =>
        injection heq with hsol
        subst hsol
        split at hok
        · exact absurd hok (by simp)
        · next Ts' hrec =>
          simp only [Except.ok.injEq] at hok
          subst hok
          obtain ⟨hlen, hidx⟩ := ih _ Ts'
            (fun Q hQ => hs Q (List.mem_cons_of_mem _ hQ)) hrec
          refine ⟨by simp [hlen], ?_⟩
          intro i hi
          cases i with
          | zero =>
            refine ⟨P, it (fun T => rock.S P T - S0) rock.bounds.2.1
              rock.bounds.2.2, by simp, by simp,
              hs P (List.mem_cons_self P Ps)⟩
          | succ j =>
            have hj : j < Ps.length := by simpa using hi
            obtain ⟨Q, T, h1, h2, h3⟩ := hidx j hj
            exact ⟨Q, T, by simpa using h1, by simpa using h2, h3⟩

/-- C1: for a monotonically increasing pressure sequence, an evaluator
whose entropy is continuous in temperature, and a Brent iteration whose
returned point has entropy residual below the tolerance (the
root-finder contract), every temperature returned by `isentrope`
matches the target entropy at its pressure to within that tolerance:
`|S(P_i, T_i) - S0| < tol` for every `i`. -/
theorem isentrope_residual_C1 (it : (ℚ → ℚ) → ℚ → ℚ → ℚ) (rock : RockTable)
    (pressures : List ℚ) (S0 T_guess tol : ℚ)
    (hmono : List.Chain' (· < ·) pressures)
    (hcont : ∀ P, Continuous fun T => rock.S P T)
    (htol : 0 < tol)
    (hsolver : ∀ P ∈ pressures, |rock.S P (it (fun T => rock.S P T - S0)
      rock.bounds.2.1 rock.bounds.2.2) - S0| < tol)
    (Ts : List ℚ) (hok : isentrope it rock pressures S0 T_guess = .ok Ts) :
    Ts.length = pressures.length ∧
    ∀ i, i < pressures.length → ∃ P T, pressures[i]? = some P ∧
      Ts[i]? = some T ∧ |rock.S P T - S0| < tol :=
  isentropeLoop_residual it rock S0 tol pressures T_guess Ts hsolver hok

/-- Witness for C1 at a concrete one-pressure instance. -/
theorem isentrope_residual_C1_witness :
    ([1] : List ℚ).length = ([5] : List ℚ).length ∧
    ∀ i, i < ([5] : List ℚ).length → ∃ P T, ([5] : List ℚ)[i]? = some P ∧
      ([1] : List ℚ)[i]? = some T ∧ |rockW.S P T - 1| < 1 :=
  isentrope_residual_C1 brentqIterW rockW [5] 1 0 1
    (by norm_num [List.chain'_cons]) (fun _ => continuous_id) (by norm_num)
    (by intro P hP
        rcases List.mem_singleton.mp hP with rfl
        norm_num [rockW, brentqIterW])
    [1]
    (by norm_num [isentrope, isentropeLoop, brentq, rockW, brentqIterW])

theorem isentropeLoop_unbracketed (it : (ℚ → ℚ) → ℚ → ℚ → ℚ)
    (rock : RockTable) (S0 : ℚ) :
    ∀ (ps : List ℚ) (g : ℚ),
      (∃ P ∈ ps, (rock.S P rock.bounds.2.1 - S0) *
        (rock.S P rock.bounds.2.2 - S0) > 0) →
      isentropeLoop it rock S0 ps g = .error .RootNotBracketed := by
  intro ps
  induction ps with
  | nil => rintro g ⟨P, hP, _⟩; simp at hP
  | cons Q Ps ih =>
    rintro g ⟨P, hP, hsign⟩
    simp only [isentropeLoop, brentq]
    by_cases hbr : (rock.S Q rock.bounds.2.1 - S0) *
        (rock.S Q rock.bounds.2.2 - S0) > 0
    · rw [if_pos hbr]
    · rw [if_neg hbr]
      rcases List.mem_cons.mp hP with rfl | hmem
      · exact absurd hsign hbr
      · have htail := ih (it (fun T => rock.S Q T - S0)
          rock.bounds.2.1 rock.bounds.2.2) ⟨P, hmem, hsign⟩
        split
        · next e heq => exact absurd heq (by simp)
        · next Ts' heq =>
          injection heq with h
          subst h
          rw [htail]

theorem interpIsentropeLoop_length (fs : (ℚ → ℚ) → ℚ → ℚ)
    (interp : ℚ → ℚ → ℚ) (S0 : ℚ) :
    ∀ (ps : List ℚ) (g : ℚ),
      (interpIsentropeLoop fs interp S0 ps g).length = ps.length := by
  intro ps
  induction ps with
  | nil => intro g; rfl
  | cons P Ps ih => intro g; simp [interpIsentropeLoop, ih]

/-- C5 (amended): `isentrope` fails with `RootNotBracketed` whenever the
entropy residual has the same strict sign at both temperature bounds at
some pressure (scipy `brentq`'s bracket check); `interp_isentrope`,
built on the unbracketed `fsolve`, never signals an error — it always
returns one iterate per pressure (scipy `fsolve` reports
non-convergence through its info flag and a warning, not an
exception). -/
theorem solver_error_behaviour_C5 :
    (∀ (it : (ℚ → ℚ) → ℚ → ℚ → ℚ) (rock : RockTable) (pressures : List ℚ)
      (S0 Tg : ℚ),
      (∃ P ∈ pressures, (rock.S P rock.bounds.2.1 - S0) *
        (rock.S P rock.bounds.2.2 - S0) > 0) →
      isentrope it rock pressures S0 Tg = .error .RootNotBracketed) ∧
    (∀ (fs : (ℚ → ℚ) → ℚ → ℚ) (interp : ℚ → ℚ → ℚ) (pressures : List ℚ)
      (S0 Tg : ℚ),
      (interp_isentrope fs interp pressures S0 Tg).length = pressures.length) :=
  ⟨fun it rock ps S0 Tg h => isentropeLoop_unbracketed it rock S0 ps Tg h,
   fun fs interp ps S0 Tg => interpIsentropeLoop_length fs interp S0 ps Tg⟩

/-- Witness for C5 (amended) at a concrete unbracketed instance: the
target entropy 5 lies outside the entropy range `[0, 2]` of `rockW`
over its temperature bounds. -/
theorem solver_error_behaviour_C5_witness :
    isentrope brentqIterW rockW [3] 5 0 = .error .RootNotBracketed :=
  solver_error_behaviour_C5.1 brentqIterW rockW [3] 5 0
    ⟨3, by decide, by norm_num [rockW]⟩

/-- Counterexample to C5 as stated: with the entropy target 5 outside
the range of the interpolant over the temperature bounds `[0, 2]`,
`interp_isentrope` raises nothing: it returns the (out-of-bounds)
iterate produced by `fsolve` — here the initial guess 7 — instead of a
`RootNotBracketed` error. -/
theorem interp_isentrope_no_error_C5_counterexample :
    (∀ T ∈ Set.Icc (0 : ℚ) 2, interpC5 1 T ≠ 5) ∧
    interp_isentrope fsolveStall interpC5 [1] 5 7 = [7] ∧
    (7 : ℚ) ∉ Set.Icc (0 : ℚ) 2 := by
  refine ⟨?_, rfl, ?_⟩
  · rintro T ⟨_, h2⟩ hT
    rw [show interpC5 1 T = T from rfl] at hT
    subst hT
    norm_num at h2
  · simp only [Set.mem_Icc]
    norm_num

/-- Counterexample to C8 as stated: a single `isentrope` solve at
pressure `2e0` leaves the evaluator with current state `(2, 1)` (the
last `set_state` performed by the root-finder's residual evaluations),
which differs from the state `(1e5, 1550)` the evaluator held before
the call — the core mutates, not merely queries, the evaluator. -/
theorem evaluator_state_mutated_C8 :
    (isentropeSt 0 evalC8 [2] 1 0).toOption.map (fun r => r.2.current) =
      some (2, 1) ∧ evalC8.current ≠ ((2 : ℚ), (1 : ℚ)) := by
  refine ⟨?_, ?_⟩
  · simp only [isentropeSt, isentropeStLoop, brentqSt, deltaS_st, set_state,
      currentS, bisectGo, evalC8, rockW]
    norm_num
    exact ⟨_, _, rfl, rfl⟩
  · intro h
    have h1 : (1e5 : ℚ) = 2 := congrArg Prod.fst h
    norm_num at h1

theorem bisectGo_table (S0 P : ℚ) :
    ∀ (n : ℕ) (a fa b : ℚ) (e : Evaluator),
      ((bisectGo (deltaS_st S0 P) n a fa b e).2).table = e.table := by
  intro n
  induction n with
  | zero => intro a fa b e; rfl
  | succ k ih =>
    intro a fa b e
    simp only [bisectGo]
    by_cases h : fa * (deltaS_st S0 P ((a + b) / 2) e).1 ≤ 0
    · rw [if_pos h]; exact ih _ _ _ _
    · rw [if_neg h]; exact ih _ _ _ _

theorem brentqSt_table (S0 P : ℚ) (n : ℕ) (a b : ℚ) (e : Evaluator)
    (r : ℚ × Evaluator) (h : brentqSt (deltaS_st S0 P) n a b e = .ok r) :
    r.2.table = e.table := by
  simp only [brentqSt] at h
  by_cases hc : (deltaS_st S0 P a e).1 *
      (deltaS_st S0 P b (deltaS_st S0 P a e).2).1 > 0
  · rw [if_pos hc] at h; exact absurd h (by simp)
  · rw [if_neg hc] at h
    injection h with h2
    rw [← h2]
    exact bisectGo_table S0 P n a _ b _

theorem isentropeStLoop_table (fuel : ℕ) (S0 : ℚ) :
    ∀ (ps : List ℚ) (g : ℚ) (e : Evaluator) (r : List ℚ × Evaluator),
      isentropeStLoop fuel S0 ps g e = .ok r → r.2.table = e.table := by
  intro ps
  induction ps with
  | nil =>
    intro g e r h
    simp only [isentropeStLoop, Except.ok.injEq] at h
    rw [← h]
  | cons P Ps ih =>
    intro g e r h
    simp only [isentropeStLoop] at h
    split at h
    · exact absurd h (by simp)
    · next r1 hbr =>
      split at h
      · exact absurd h (by simp)
      · next r2 hrec =>
        simp only [Except.ok.injEq] at h
        subst h
        exact (ih _ _ _ hrec).trans (brentqSt_table S0 P fuel _ _ e r1 hbr)

/-- C8 (amended): the core computations are deterministic functions of
their explicit inputs and never modify the evaluator's immutable
property table, but they do overwrite the evaluator's current
`(pressure, temperature)` state through `set_state`; after a
successful `isentrope` run only the table is guaranteed unchanged. -/
theorem isentropeSt_table_frame_C8 (fuel : ℕ) (e : Evaluator)
    (pressures : List ℚ) (entropy T_guess : ℚ) (r : List ℚ × Evaluator)
    (h : isentropeSt fuel e pressures entropy T_guess = .ok r) :
    r.2.table = e.table :=
  isentropeStLoop_table fuel entropy pressures T_guess e r h

/-- Witness for C8 (amended) at a concrete solve. -/
theorem isentropeSt_table_frame_C8_witness :
    (([1], (⟨rockW, (3, 1)⟩ : Evaluator)) : List ℚ × Evaluator).2.table =
      evalC8b.table :=
  isentropeSt_table_frame_C8 0 evalC8b [3] 1 0 ([1], ⟨rockW, (3, 1)⟩)
    (by simp only [isentropeSt, isentropeStLoop, brentqSt, deltaS_st,
          set_state, currentS, bisectGo, evalC8b, rockW]
        norm_num)

theorem linspace_length (a b : ℚ) (n : ℕ) : (linspace a b n).length = n := by
  unfold linspace
  by_cases h : n = 1
  · rw [if_pos h, h]; rfl
  · rw [if_neg h, List.length_map, List.length_range]

theorem linspace_getD (a b : ℚ) (n i : ℕ) (hn : n ≠ 1) (hi : i < n) :
    (linspace a b n).getD i 0 = a + ((b - a) * i) / ((n : ℚ) - 1) := by
  unfold linspace
  rw [if_neg hn, List.getD_eq_getElem?_getD, List.getElem?_map,
    List.getElem?_range hi]
  rfl

/-- C10: before writing the output file, `update_plot` resamples every
column onto `n_points` depths equally spaced between the first and last
computed depth, mapping them to pressures through the depth-to-pressure
spline and resampling each property by `np.interp`; the resulting rows
are equally spaced in depth, the first sample being the first computed
depth and the last sample the last computed depth. -/
theorem resample_equal_depth_C10 (spline : List ℚ → List ℚ → ℚ → ℚ)
    (depths pressures col : List ℚ) (n : ℕ) (hn : 2 ≤ n) :
    (depthsEq depths n).length = n ∧
    (depthsEq depths n).getD 0 0 = depths.headD 0 ∧
    (depthsEq depths n).getD (n - 1) 0 = depths.getLastD 0 ∧
    (∀ i, i + 1 < n →
      (depthsEq depths n).getD (i + 1) 0 - (depthsEq depths n).getD i 0 =
        (depths.getLastD 0 - depths.headD 0) / ((n : ℚ) - 1)) ∧
    (∀ i, i < n →
      (resampleColumn (pressuresEq spline depths pressures n) pressures
        col).getD i 0 =
      npInterp ((pressuresEq spline depths pressures n).getD i 0)
        pressures col) := by
  have hn1 : n ≠ 1 := by omega
  have hcast : ((n : ℚ) - 1) ≠ 0 := by
    have h2 : (2 : ℚ) ≤ (n : ℚ) := by exact_mod_cast hn
    linarith
  refine ⟨linspace_length _ _ _, ?_, ?_, ?_, ?_⟩
  · rw [depthsEq, linspace_getD _ _ _ 0 hn1 (by omega)]
    simp
  · rw [depthsEq, linspace_getD _ _ _ _ hn1 (by omega)]
    have hc : ((n - 1 : ℕ) : ℚ) = (n : ℚ) - 1 := by
      push_cast [Nat.cast_sub (by omega : 1 ≤ n)]
      ring
    rw [hc]
    field_simp
  · intro i hi
    rw [depthsEq, linspace_getD _ _ _ _ hn1 (by omega),
      linspace_getD _ _ _ _ hn1 (by omega)]
    push_cast
    field_simp
    ring
  · intro i hi
    have hlen : (pressuresEq spline depths pressures n).length = n := by
      simp [pressuresEq, depthsEq, linspace_length]
    rw [resampleColumn, List.getD_eq_getElem?_getD, List.getElem?_map,
      List.getElem?_eq_getElem (by rw [hlen]; exact hi),
      List.getD_eq_getElem _ _ (by rw [hlen]; exact hi)]
    rfl

/-- Witness for C10 at a concrete profile. -/
theorem resample_equal_depth_C10_witness :
    (depthsEq [0, 10] 3).length = 3 :=
  (resample_equal_depth_C10 splineW [0, 10] [0, 1] [5, 6] 3 (by norm_num)).1

theorem sciMantissa_digits (p : ℕ) (q : ℚ) (hq : q ≠ 0) :
    (Nat.digits 10 (sciMantissa p q)).length = p + 1 := by
  have habs : (0 : ℚ) < |q| := abs_pos.mpr hq
  have hb : (1 : ℕ) < 10 := by norm_num
  have h1 : ((10 : ℕ) : ℚ) ^ Int.log 10 |q| ≤ |q| :=
    Int.zpow_log_le_self hb habs
  have h2 : |q| < ((10 : ℕ) : ℚ) ^ (Int.log 10 |q| + 1) :=
    Int.lt_zpow_succ_log_self hb |q|
  have hten : ((10 : ℕ) : ℚ) = (10 : ℚ) := by norm_num
  rw [hten] at h1 h2
  simp only [sciMantissa]
  set e := Int.log 10 |q| with he
  set m : ℚ := |q| * (10 : ℚ) ^ ((p : ℤ) - e) with hm
  have hne : (10 : ℚ) ≠ 0 := by norm_num
  have hzpos : (0 : ℚ) < (10 : ℚ) ^ ((p : ℤ) - e) := zpow_pos (by norm_num) _
  have hlow : (10 : ℚ) ^ (p : ℤ) ≤ m := by
    have hmul := mul_le_mul_of_nonneg_right h1 (le_of_lt hzpos)
    rwa [← zpow_add₀ hne e ((p : ℤ) - e), add_sub_cancel] at hmul
  have hhigh : m < (10 : ℚ) ^ ((p : ℤ) + 1) := by
    have hmul := mul_lt_mul_of_pos_right h2 hzpos
    rwa [← zpow_add₀ hne (e + 1) ((p : ℤ) - e),
      show e + 1 + ((p : ℤ) - e) = (p : ℤ) + 1 by ring] at hmul
  have hcast_p : (((10 : ℤ) ^ p : ℤ) : ℚ) = (10 : ℚ) ^ (p : ℤ) := by
    push_cast
    rw [zpow_natCast]
  have hcast_p1 : (((10 : ℤ) ^ (p + 1) : ℤ) : ℚ) = (10 : ℚ) ^ ((p : ℤ) + 1) := by
    push_cast
    rw [← zpow_natCast]
    push_cast
    ring_nf
  have hr1 : (10 : ℤ) ^ p ≤ round m := by
    have hle : (((10 : ℤ) ^ p : ℤ) : ℚ) ≤ m := by rw [hcast_p]; exact hlow
    calc (10 : ℤ) ^ p = round ((((10 : ℤ) ^ p : ℤ) : ℚ)) := (round_intCast _).symm
      _ ≤ round m := by
          rw [round_eq, round_eq]
          exact Int.floor_le_floor (by linarith)
  have hr2 : round m ≤ (10 : ℤ) ^ (p + 1) := by
    rw [round_eq]
    have hlt2 : m + 1 / 2 < (((10 : ℤ) ^ (p + 1) + 1 : ℤ) : ℚ) := by
      push_cast
      rw [show ((10 : ℚ) ^ (p + 1) : ℚ) = (10 : ℚ) ^ ((p : ℤ) + 1) by
        rw [← zpow_natCast]; push_cast; ring_nf]
      linarith
    have := Int.floor_lt.mpr hlt2
    omega
  by_cases hcar : round m = 10 ^ (p + 1)
  · rw [if_pos hcar, Nat.digits_len 10 _ hb (pow_ne_zero p (by norm_num)),
      Nat.log_pow hb]
  · rw [if_neg hcar]
    have hlt : round m < (10 : ℤ) ^ (p + 1) := lt_of_le_of_ne hr2 hcar
    have hn0 : (0 : ℤ) < round m := lt_of_lt_of_le (by positivity) hr1
    have hnat_low : 10 ^ p ≤ (round m).toNat := by
      rw [Int.le_toNat (le_of_lt hn0)]
      exact_mod_cast hr1
    have hnat_high : (round m).toNat < 10 ^ (p + 1) := by
      rw [Int.toNat_lt' (by positivity)]
      exact_mod_cast hlt
    have hpow0 : 0 < 10 ^ p := pow_pos (by norm_num) p
    rw [Nat.digits_len 10 _ hb (by omega : (round m).toNat ≠ 0)]
    rw [Nat.log_eq_of_pow_le_of_lt_pow hnat_low hnat_high]

/-- Counterexample to C6 as stated: the notebook's format `%.10e`
renders the value 1 with eleven significant digits (mantissa
`1.0000000000`), not ten. -/
theorem aspect_format_digits_C6_counterexample :
    (Nat.digits 10 (sciMantissa aspectFmtPrec 1)).length ≠ 10 := by
  rw [sciMantissa_digits aspectFmtPrec 1 (by norm_num)]
  norm_num [aspectFmtPrec]

/-- C6 (amended): every data row of the output table holds exactly the
twelve columns in the order depth, pressure, temperature, density,
gravity, thermal expansivity, specific heat, compressibility, Vs, Vp,
dVs/dT, dVp/dT; the header block names the point count and the column
semantics; and each value is formatted by `%.10e`, i.e. with eleven
significant digits (one before the decimal point and ten after), not
ten. -/
theorem aspect_output_format_C6 :
    (∀ (d pr t rho g a c beta vs vp dvs dvp : List ℚ) (n i : ℕ), i < n →
      (savetxtRows (aspectColumns d pr t rho g a c beta vs vp dvs dvp) n)[i]? =
        some [d.getD i 0, pr.getD i 0, t.getD i 0, rho.getD i 0, g.getD i 0,
          a.getD i 0, c.getD i 0, beta.getD i 0, vs.getD i 0, vp.getD i 0,
          dvs.getD i 0, dvp.getD i 0]) ∧
    (∀ q : ℚ, q ≠ 0 →
      (Nat.digits 10 (sciMantissa aspectFmtPrec q)).length =
        aspectFmtPrec + 1) ∧
    (∀ n : ℕ, aspectHeader n =
      aspectHeaderPre ++ toString n ++ aspectHeaderPost) := by
  refine ⟨?_, fun q hq => sciMantissa_digits aspectFmtPrec q hq, fun n => rfl⟩
  intro d pr t rho g a c beta vs vp dvs dvp n i hi
  simp [savetxtRows, aspectColumns, List.getElem?_map, List.getElem?_range hi]

/-- Witness for C6 (amended): the value 2 is rendered with
`aspectFmtPrec + 1 = 11` significant digits. -/
theorem aspect_output_format_C6_witness :
    (Nat.digits 10 (sciMantissa aspectFmtPrec 2)).length = aspectFmtPrec + 1 :=
  aspect_output_format_C6.2.1 2 (by norm_num)

theorem temperature_stdev_pzero (iso : ℚ → ℚ) (gp : List ℚ) (fac ms : ℚ)
    (h : 0 ≤ ms) : temperature_stdev iso gp 0 fac ms = 0 := by
  simp [temperature_stdev, min_eq_right h]

theorem interp_matches_isentrope (fs : (ℚ → ℚ) → ℚ → ℚ)
    (it : (ℚ → ℚ) → ℚ → ℚ → ℚ) (rock : RockTable) (S0 : ℚ)
    (hinj : ∀ P, Function.Injective fun T => rock.S P T) :
    ∀ (ps : List ℚ) (g1 g2 : ℚ) (Ts : List ℚ),
      (∀ P ∈ ps, rock.S P (it (fun T => rock.S P T - S0)
        rock.bounds.2.1 rock.bounds.2.2) = S0) →
      (∀ P ∈ ps, ∀ g, rock.S P (fs (fun T => rock.S P T - S0) g) = S0) →
      isentropeLoop it rock S0 ps g1 = .ok Ts →
      interpIsentropeLoop fs rock.S S0 ps g2 = Ts := by
  intro ps
  induction ps with
  | nil =>
    intro g1 g2 Ts _ _ hok
    simp only [isentropeLoop, Except.ok.injEq] at hok
    subst hok
    rfl
  | cons P Ps ih =>
    intro g1 g2 Ts hbr hfs hok
    simp only [isentropeLoop, brentq] at hok
    by_cases hc : (rock.S P rock.bounds.2.1 - S0) *
        (rock.S P rock.bounds.2.2 - S0) > 0
    · rw [if_pos hc] at hok
      exact absurd hok (by simp)
    · rw [if_neg hc] at hok
      split at hok
      · next e heq => exact absurd heq (by simp)
      · next sol heq =>
        injection heq with hsol
        subst hsol
        split at hok
        · exact absurd hok (by simp)
        · next Ts' hrec =>
          simp only [Except.ok.injEq] at hok
          subst hok
          simp only [interpIsentropeLoop]
          have hfs0 : rock.S P (fs (fun T => rock.S P T - S0) g2) = S0 :=
            hfs P (List.mem_cons_self P Ps) g2
          have hsoleq : fs (fun T => rock.S P T - S0) g2 =
              it (fun T => rock.S P T - S0)
                rock.bounds.2.1 rock.bounds.2.2 := by
            apply hinj P
            show rock.S P (fs (fun T => rock.S P T - S0) g2) =
              rock.S P (it (fun T => rock.S P T - S0)
                rock.bounds.2.1 rock.bounds.2.2)
            rw [hfs0, hbr P (List.mem_cons_self P Ps)]
          rw [hsoleq,
            ih _ _ Ts' (fun Q hQ => hbr Q (List.mem_cons_of_mem _ hQ))
              (fun Q hQ g => hfs Q (List.mem_cons_of_mem _ hQ) g) hrec]

/-- C7: with pressure smoothing width 0 (and a nonnegative temperature
cap, so the derived temperature width is 0 as well), and under the
idealisations that zero-width smoothing reproduces the entropy
function (spec-modelled behaviour of the burnman smoothing
constructor), that both root-finders solve their equations exactly,
and that entropy is injective in temperature, the smoothed-isentrope
temperatures returned by `relaxed_profile` equal the unsmoothed
isentrope temperatures at every profile pressure. -/
theorem zero_smoothing_identity_C7 (lib : NumLib) (rock : RockTable)
    (potential_temperature max_pressure surface_gravity outer_radius : ℚ)
    (n_points : ℕ) (n_gridpoints : ℕ × ℕ)
    (temperature_smoothing_factor max_temperature_stdev truncate : ℚ)
    (hmax : 0 ≤ max_temperature_stdev)
    (hsm : SmoothZeroWidthId lib.smooth rock.S)
    (hinj : ∀ P, Function.Injective fun T => rock.S P T)
    (hbr : ∀ P ∈ linspace 1e5 max_pressure n_points,
      rock.S P (lib.brentqIter (fun T => rock.S P T -
        rock.S 1e5 potential_temperature) rock.bounds.2.1 rock.bounds.2.2) =
        rock.S 1e5 potential_temperature)
    (hfs : ∀ P ∈ linspace 1e5 max_pressure n_points, ∀ g,
      rock.S P (lib.fsolve (fun T => rock.S P T -
        rock.S 1e5 potential_temperature) g) =
        rock.S 1e5 potential_temperature)
    (res : ProfileResult) (Ts : List ℚ)
    (hok : relaxed_profile lib rock potential_temperature max_pressure
      surface_gravity outer_radius n_points n_gridpoints 0
      temperature_smoothing_factor max_temperature_stdev truncate = .ok res)
    (hraw : isentrope lib.brentqIter rock (linspace 1e5 max_pressure n_points)
      (rock.S 1e5 potential_temperature) potential_temperature = .ok Ts) :
    res.smoothed_temperatures = Ts := by
  simp only [relaxed_profile] at hok
  rw [hraw] at hok
  split at hok
  · next e heq => exact absurd heq (by simp)
  · next temps heq =>
    injection heq with h1
    subst h1
    injection hok with hres
    subst hres
    simp only [relaxedRest]
    rw [temperature_stdev_pzero _ _ _ _ hmax, hsm]
    simp only [interp_isentrope]
    exact interp_matches_isentrope lib.fsolve lib.brentqIter rock
      (rock.S 1e5 potential_temperature) hinj
      (linspace 1e5 max_pressure n_points) potential_temperature
      potential_temperature Ts hbr hfs hraw

/-- Witness for C7 at a concrete one-point profile. -/
theorem zero_smoothing_identity_C7_witness :
    (relaxedRest libW rockW 1 1e5 9 5 1 (2, 2) 0 (1/4) 30 4
      [1]).smoothed_temperatures = [1] := by
  have hiso : isentrope libW.brentqIter rockW (linspace 1e5 1e5 1)
      (rockW.S 1e5 1) 1 = .ok [1] := by
    norm_num [isentrope, isentropeLoop, brentq, linspace, libW, brentqIterW,
      rockW]
  exact zero_smoothing_identity_C7 libW rockW 1 1e5 9 5 1 (2, 2) (1/4) 30 4
    (by norm_num)
    (fun arr xs ys tr => rfl)
    (fun _P a b h => h)
    (by intro P hP
        have hp : P = 1e5 := by simpa [linspace] using hP
        subst hp
        norm_num [libW, brentqIterW, rockW])
    (by intro P hP g
        have hp : P = 1e5 := by simpa [linspace] using hP
        subst hp
        norm_num [libW, fsolveW, rockW])
    (relaxedRest libW rockW 1 1e5 9 5 1 (2, 2) 0 (1/4) 30 4 [1]) [1]
    (by simp only [relaxed_profile]
        rw [hiso])
    hiso
